import Mathlib

/-!
Verification development for the `terminalart` renderer (`art.6.py`).

The Python source is embedded shallowly:

* byte strings are `List ℕ` (each element a byte value 0..255);
* Python `int` values are `ℤ` (`int()` parsing of a byte token is modelled
  bit-for-bit by `pyInt`, including sign, ASCII whitespace stripping and
  underscore separators; Python floor division `//` is `Int.fdiv`);
* Python floats are modelled as exact rationals `ℚ` (the properties at stake
  are interval bounds and comparisons, stated in exact arithmetic);
* the excitation grid, a Python dict `(x, y) -> float`, is an association
  list `Grid` with `gridGet` defaulting to `0`, matching `dict.get(k, 0.0)`;
* `random.SystemRandom` draws are an explicit oracle `Rng`: every call to
  `random()` / `uniform(a, b)` / `randint(lo, hi)` consumes the next value of
  a stream; `uniform` and `randint` coerce the drawn value into the requested
  range, which is the only property the library guarantees.

Definitions are transcribed from the source; the one exception is
`specPbmDecode`, which follows the specification text instead and exists only
to be compared against the transcribed decoder `loadPbmMask`.
-/

/-! ## PBM raster decoder (`load_pbm_mask`, art.6.py lines 281-327) -/

/-- Result of a successful decode: `(width, height, row_bytes, payload)`. -/
structure PbmMask where
  width : ℤ
  height : ℤ
  rowBytes : ℤ
  payload : List ℕ
deriving DecidableEq, Repr

/-- The whitespace set used by the decoder, Python `b" \t\r\n"`. -/
def isPbmWs (b : ℕ) : Bool := b == 32 || b == 9 || b == 13 || b == 10

/-- ASCII whitespace stripped by Python `int()`: `\t\n\v\f\r` and space. -/
def isPyIntWs (b : ℕ) : Bool := b == 9 || b == 10 || b == 11 || b == 12 || b == 13 || b == 32

/-- ASCII decimal digit test. -/
def isDigitB (b : ℕ) : Bool := 48 ≤ b && b ≤ 57

/-- Digit run of a Python integer literal after its first digit: single
underscores are allowed between digits, nothing else. -/
def parseDigitsCore : List ℕ → ℕ → Option ℕ
  | [], acc => some acc
  | b :: rest, acc =>
    if isDigitB b then parseDigitsCore rest (acc * 10 + (b - 48))
    else if b == 95 then
      match rest with
      | c :: rest2 => if isDigitB c then parseDigitsCore rest2 (acc * 10 + (c - 48)) else none
      | [] => none
    else none

/-- A Python integer literal must start with a digit (after any sign). -/
def parseDigitsStart : List ℕ → Option ℕ
  | [] => none
  | b :: rest => if isDigitB b then parseDigitsCore rest (b - 48) else none

/-- Strip ASCII whitespace from both ends, as Python `int()` does. -/
def stripPyWs (l : List ℕ) : List ℕ :=
  ((l.dropWhile isPyIntWs).reverse.dropWhile isPyIntWs).reverse

/-- Python `int(token)` over a byte token: `some n` on success, `none` when
Python would raise `ValueError` (caught by the decoder). -/
def pyInt (tok : List ℕ) : Option ℤ :=
  match stripPyWs tok with
  | [] => none
  | b :: rest =>
    if b == 43 then (parseDigitsStart rest).map (fun n => (n : ℤ))
    else if b == 45 then (parseDigitsStart rest).map (fun n => -(n : ℤ))
    else (parseDigitsStart (b :: rest)).map (fun n => (n : ℤ))

/-- State of the header tokenizer: between tokens, inside a `#` comment, or
inside a token (accumulated bytes in reverse). -/
inductive ScanMode where
  | scan : ScanMode
  | comment : ScanMode
  | token : List ℕ → ScanMode

/-- The dimension-token loop of `load_pbm_mask` (lines 294-307), one byte at a
time.  It stops as soon as two tokens are complete, returning the tokens and
the unconsumed remainder of the input (the delimiter byte included, exactly
where the Python index is left). -/
def scanDims : List ℕ → ScanMode → List (List ℕ) → List (List ℕ) × List ℕ
  | [], mode, tokens =>
    match mode with
    | ScanMode.token acc => (tokens ++ [acc.reverse], [])
    | _ => (tokens, [])
  | b :: rest, mode, tokens =>
    match mode with
    | ScanMode.scan =>
      if isPbmWs b then scanDims rest ScanMode.scan tokens
      else if b == 35 then scanDims rest ScanMode.comment tokens
      else scanDims rest (ScanMode.token [b]) tokens
    | ScanMode.comment =>
      if b == 13 || b == 10 then scanDims rest ScanMode.scan tokens
      else scanDims rest ScanMode.comment tokens
    | ScanMode.token acc =>
      if isPbmWs b then
        let tokens2 := tokens ++ [acc.reverse]
        if tokens2.length == 2 then (tokens2, b :: rest)
        else scanDims rest ScanMode.scan tokens2
      else scanDims rest (ScanMode.token (b :: acc)) tokens

/-- Tokenize the two dimension tokens after the magic bytes. -/
def readDims (data : List ℕ) : List (List ℕ) × List ℕ := scanDims data ScanMode.scan []

/-- Shallow embedding of `load_pbm_mask` from the byte content onward (the
file-read `OSError` guard is outside the byte-level contract).  Mirrors the
source: magic check, two whitespace-separated dimension tokens with comment
skipping, `int()` parsing, a skip of all consecutive whitespace, then a
payload slice of `(width + 7) // 8 * height` bytes checked for exact length. -/
def loadPbmMask (data : List ℕ) : Option PbmMask :=
  if data.take 2 = [80, 52] then
    match readDims (data.drop 2) with
    | (tokens, rest) =>
      match tokens with
      | [t1, t2] =>
        match pyInt t1, pyInt t2 with
        | some w, some h =>
          let rest2 := rest.dropWhile isPbmWs
          let rowBytes := Int.fdiv (w + 7) 8
          let expected := rowBytes * h
          let payload := rest2.take expected.toNat
          if (payload.length : ℤ) = expected then some (PbmMask.mk w h rowBytes payload)
          else none
        | _, _ => none
      | _ => none
  else none

/-- Modelled from the spec: the raster format as §6 words it, for the claim
C4 refinement comparison only — after the two dimension tokens come "exactly
one byte of whitespace separating header from payload" and then "a payload of
exactly `ceil(width/8) * height` bytes" (any other payload length rejected).
Tokenization and `int()` parsing are shared with the transcribed decoder. -/
def specPbmDecode (data : List ℕ) : Option PbmMask :=
  if data.take 2 = [80, 52] then
    match readDims (data.drop 2) with
    | (tokens, rest) =>
      match tokens with
      | [t1, t2] =>
        match pyInt t1, pyInt t2 with
        | some w, some h =>
          match rest with
          | b :: payload =>
            if isPbmWs b then
              let rowBytes := Int.fdiv (w + 7) 8
              let expected := rowBytes * h
              if (payload.length : ℤ) = expected then some (PbmMask.mk w h rowBytes payload)
              else none
            else none
          | [] => none
        | _, _ => none
      | _ => none
  else none

/-! ## Excitation grid and the injection primitive
(`inject_sigil_excitation`, art.6.py lines 224-257) -/

/-- The sparse excitation grid, Python dict `(x, y) -> float`. -/
abbrev Grid := List ((ℤ × ℤ) × ℚ)

/-- `excitation_grid.get((x, y), 0.0)`. -/
def gridGet (g : Grid) (c : ℤ × ℤ) : ℚ :=
  match g.find? (fun p => decide (p.1 = c)) with
  | some p => p.2
  | none => 0

/-- `excitation_grid[(x, y)] = v`. -/
def gridSet : Grid → (ℤ × ℤ) → ℚ → Grid
  | [], c, v => [(c, v)]
  | p :: rest, c, v => if p.1 = c then (c, v) :: rest else p :: gridSet rest c v

/-- The write pattern used everywhere in the source: store `v` only when it
exceeds the current value. -/
def condRaise (g : Grid) (c : ℤ × ℤ) (v : ℚ) : Grid :=
  if v > gridGet g c then gridSet g c v else g

/-- `active_sparks.add((x, y))` over a set modelled as a duplicate-free list. -/
def sparksAdd (s : List (ℤ × ℤ)) (c : ℤ × ℤ) : List (ℤ × ℤ) :=
  if c ∈ s then s else c :: s

/-- Oracle for `random.SystemRandom`: streams of real-valued and integer
draws with cursors.  Each library call consumes one stream element. -/
structure Rng where
  reals : ℕ → ℚ
  rpos : ℕ
  ints : ℕ → ℕ
  ipos : ℕ

/-- `trng.random()`. -/
def nextReal (r : Rng) : ℚ × Rng :=
  (r.reals r.rpos, Rng.mk r.reals (r.rpos + 1) r.ints r.ipos)

/-- `trng.uniform(a, b)`: the draw, coerced into `[a, b]` as the library
guarantees. -/
def nextUniform (r : Rng) (a b : ℚ) : ℚ × Rng :=
  match nextReal r with
  | (u, r2) => (a + (b - a) * max 0 (min 1 u), r2)

/-- `trng.randint(lo, hi)` (inclusive bounds). -/
def nextRandint (r : Rng) (lo hi : ℕ) : ℕ × Rng :=
  (lo + r.ints r.ipos % (hi - lo + 1), Rng.mk r.reals r.rpos r.ints (r.ipos + 1))

/-- A fixed dummy oracle for call sites whose draws are never consumed. -/
def rng0 : Rng := Rng.mk (fun _ => 0) 0 (fun _ => 0) 0

/-- The 8-neighbour offsets, in source order. -/
def neighborOffsets : List (ℤ × ℤ) :=
  [(-1, 0), (1, 0), (0, -1), (0, 1), (-1, -1), (1, 1), (-1, 1), (1, -1)]

/-- One halo draw for one neighbour offset (the body of the halo loop). -/
def haloStep (x y : ℤ) (baseIntensity : ℚ) (width height : ℤ)
    (st : Grid × Rng) (d : ℤ × ℤ) : Grid × Rng :=
  match nextReal st.2 with
  | (u, r1) =>
    if u < 18/100 then
      let nx := x + d.1
      let ny := y + d.2
      if 0 ≤ nx ∧ nx < width ∧ 0 ≤ ny ∧ ny < height then
        match nextUniform r1 (4/100) (18/100) with
        | (hv, r2) => (condRaise st.1 (nx, ny) (baseIntensity * hv), r2)
      else (st.1, r1)
    else (st.1, r1)

/-- The directional spike strand: walk up to `n` cells in direction `d`,
stopping at the grid border, raising each visited cell to the decaying spike
intensity. -/
def spikeWalk (width height : ℤ) (d : ℤ × ℤ) :
    ℕ → ℤ → ℤ → ℚ → Grid → Rng → Grid × Rng
  | 0, _, _, _, g, r => (g, r)
  | n + 1, sx, sy, spike, g, r =>
    let sx2 := sx + d.1
    let sy2 := sy + d.2
    if sx2 < 0 ∨ sy2 < 0 ∨ sx2 ≥ width ∨ sy2 ≥ height then (g, r)
    else
      let g2 := condRaise g (sx2, sy2) spike
      match nextUniform r (45/100) (70/100) with
      | (f, r2) => spikeWalk width height d n sx2 sy2 (spike * f) g2 r2

/-- `inject_sigil_excitation`: bounds guard, monotone raise of the target,
spark registration, then (with halo) the neighbour halo loop and the optional
spike strand. -/
def injectSigilExcitation (g : Grid) (sparks : List (ℤ × ℤ)) (x y : ℤ)
    (baseIntensity : ℚ) (rng : Rng) (width height : ℤ) (withHalo : Bool) :
    Grid × List (ℤ × ℤ) × Rng :=
  if x < 0 ∨ y < 0 ∨ x ≥ width ∨ y ≥ height then (g, sparks, rng)
  else
    let g1 := condRaise g (x, y) baseIntensity
    let sparks1 := sparksAdd sparks (x, y)
    if withHalo = false then (g1, sparks1, rng)
    else
      let st := neighborOffsets.foldl (haloStep x y baseIntensity width height) (g1, rng)
      match nextReal st.2 with
      | (u, r1) =>
        if u < 12/100 then
          match nextRandint r1 0 7 with
          | (i, r2) =>
            match nextUniform r2 (22/100) (42/100) with
            | (sv, r3) =>
              match nextRandint r3 1 3 with
              | (n, r4) =>
                match spikeWalk width height (neighborOffsets.getD i (0, 0)) n x y
                    (baseIntensity * sv) st.1 r4 with
                | (g2, r5) => (g2, sparks1, r5)
        else (st.1, sparks1, r1)

/-! ## Per-frame excitation phase (art.6.py lines 736-786 and 947-954) -/

/-- `excite_decay` (line 752): `max(0.08, 0.12 - (intent_dilation * 0.015 if
gate open else 0.0))`. -/
def exciteDecayRate (intentDilation : ℚ) (gateOpen : Bool) : ℚ :=
  max (8/100) (12/100 - (if gateOpen then intentDilation * (15/1000) else 0))

/-- The decay pass (lines 751-758): subtract the rate everywhere, then delete
every cell at or below zero. -/
def decayStep (g : Grid) (d : ℚ) : Grid :=
  (g.map (fun p => (p.1, p.2 - d))).filter (fun p => decide (0 < p.2))

/-- One no-halo injection folded over a list of target cells.  All three
injection call sites in the frame loop pass `with_halo=False`, so the oracle
is never consumed and a dummy is passed. -/
def injectNoHaloFold (width height : ℤ) (v : ℚ)
    (st : Grid × List (ℤ × ℤ)) (c : ℤ × ℤ) : Grid × List (ℤ × ℤ) :=
  match injectSigilExcitation st.1 st.2 c.1 c.2 v rng0 width height false with
  | (g, s, _) => (g, s)

/-- The excitation pipeline of one frame, in source order: sigil-ignition
injections at intensity `1.0` (lines 736-747), the decay pass, propagation
injections at intensity `0.94` into a fresh spark set (lines 760-786), then
render-time seed injections at intensity `1.0` (lines 947-954).  Which cells
appear in `igns`/`props`/`seeds` is decided by the schedulers, the mask
geometry and the entropy draws; the pipeline is parametrized by those position
lists, so its properties hold for every such choice. -/
def frameExcitation (g0 : Grid) (sparksPrev : List (ℤ × ℤ))
    (igns props seeds : List (ℤ × ℤ)) (intentDilation : ℚ) (gateOpen : Bool)
    (width height : ℤ) : Grid × List (ℤ × ℤ) :=
  let st1 := igns.foldl (injectNoHaloFold width height 1) (g0, sparksPrev)
  let g1 := decayStep st1.1 (exciteDecayRate intentDilation gateOpen)
  let st2 := props.foldl (injectNoHaloFold width height (94/100)) (g1, [])
  seeds.foldl (injectNoHaloFold width height 1) (st2.1, st2.2)

/-! ## Render loop domain (art.6.py lines 789-795) -/

/-- The set of cells the per-cell pipeline runs on each frame:
`for y in range(height - 1): for x in range(width - 1)`. -/
def renderedCells (width height : ℕ) : List (ℕ × ℕ) :=
  (List.range (height - 1)).flatMap (fun y => (List.range (width - 1)).map (fun x => (x, y)))

/-! ## Verified-sigil registry rebuild, fallback path
(`refresh_verified_sigil_registry`, art.6.py lines 435-539) -/

/-- `LILITH_SIGIL_ID` as set at module load (line 30); the index-absent path
never reassigns it. -/
def LILITH_SIGIL_ID : ℤ := 1

/-- One registry record, restricted to the fields the weight-table builder
reads.  `weightField` is the optional `"weight"` key; the two flags model the
truthiness of the optional `"is_lilith_grand"` / `"is_lilith_sigil"` keys
(absent keys read as false through `dict.get`). -/
structure RegEntry where
  id : ℤ
  weightField : Option ℚ
  isLilithGrand : Bool
  isLilithSigil : Bool
deriving DecidableEq, Repr

/-- The fallback registry built when the index yields no usable entries
(lines 490-503): a single hard-coded record with `"weight": 4.2` and no
`is_lilith_*` keys, present only if the Grand Seal raster decodes. -/
def fallbackRegistry (grandSealMask : Option PbmMask) : List RegEntry :=
  match grandSealMask with
  | some _ => [RegEntry.mk 1 (some (21/5)) false false]
  | none => []

/-- Insertion step of the registry sort by `id` (line 505). -/
def insertById (e : RegEntry) : List RegEntry → List RegEntry
  | [] => [e]
  | f :: rest => if e.id ≤ f.id then e :: f :: rest else f :: insertById e rest

/-- `registry.sort(key=lambda e: e["id"])`. -/
def sortById (l : List RegEntry) : List RegEntry := l.foldr insertById []

/-- One row of the weighted table (lines 521-531): the recorded weight
(default 1.0), overridden for the two named Lilith variants, floor-clamped at
`0.01`. -/
def sigilWeightRow (e : RegEntry) : ℤ × ℚ :=
  let w0 := e.weightField.getD 1
  let w1 := if e.isLilithGrand then 1 + 33/1000 else if e.isLilithSigil then 1 else w0
  (e.id, max (1/100) w1)

/-- The weighted selection table and total (lines 517-539): built from the
registry when non-empty, otherwise the frozen `((LILITH_SIGIL_ID, 1.0),)`
constants. -/
def buildWeightTable (registry : List RegEntry) : List (ℤ × ℚ) × ℚ :=
  if registry = [] then ([(LILITH_SIGIL_ID, 1)], 1)
  else
    let rows := registry.map sigilWeightRow
    let total := rows.foldl (fun acc r => acc + r.2) 0
    (rows, max total (1/100))

/-- The registry, table and total produced by
`refresh_verified_sigil_registry` on the index-absent (or zero-usable-entry)
path, as a function of whether the built-in Grand Seal raster decodes. -/
def refreshFallbackOutcome (grandSealMask : Option PbmMask) :
    List RegEntry × List (ℤ × ℚ) × ℚ :=
  let registry := sortById (fallbackRegistry grandSealMask)
  match buildWeightTable registry with
  | (table, total) => (registry, table, total)

/-- A present, well-formed stand-in for the Grand Seal raster asset:
`P4 1 1\n` followed by one payload byte. -/
def grandSealBytes : List ℕ := [80, 52, 32, 49, 32, 49, 10, 0]

/-! ## Weighted roulette draw (`pick_weighted_sigil_id`, art.6.py lines 259-269) -/

/-- The subtraction loop: `roll -= weight; if roll <= 0.0: return sid`. -/
def pickWeightedLoop : List (ℤ × ℚ) → ℚ → Option ℤ
  | [], _ => none
  | (sid, w) :: rest, roll => if roll - w ≤ 0 then some sid else pickWeightedLoop rest (roll - w)

/-- `pick_weighted_sigil_id`, parametrized by the table, its total weight and
the uniform draw `u` (`trng.random()`). -/
def pick_weighted_sigil_id (table : List (ℤ × ℚ)) (total : ℚ) (u : ℚ) : ℤ :=
  if table = [] then LILITH_SIGIL_ID
  else
    match pickWeightedLoop table (u * total) with
    | some sid => sid
    | none => ((table.getLast?).map Prod.fst).getD LILITH_SIGIL_ID

/-- Running cumulative weights of the table. -/
def cumulativeWeights : List (ℤ × ℚ) → ℚ → List ℚ
  | [], _ => []
  | (_, w) :: rest, acc => (acc + w) :: cumulativeWeights rest (acc + w)

/-- Declarative roulette selection: the id of the first entry whose cumulative
weight reaches the scaled sample, the last id as fallback. -/
def rouletteSpec (table : List (ℤ × ℚ)) (total : ℚ) (u : ℚ) : ℤ :=
  match (table.zip (cumulativeWeights table 0)).find? (fun p => decide (u * total ≤ p.2)) with
  | some p => p.1.1
  | none => ((table.getLast?).map Prod.fst).getD LILITH_SIGIL_ID

/-! ## Intent gate (art.6.py lines 649-676) -/

/-- `focus_sample_count = min(160, len(entropy_pool))`. -/
def focusSampleCount (poolLen : ℕ) : ℕ := min 160 poolLen

/-- `focus_stride = max(1, len(entropy_pool) // max(1, focus_sample_count))`. -/
def focusStride (poolLen : ℕ) : ℕ := max 1 (poolLen / max 1 (focusSampleCount poolLen))

/-- Near-duplicate or near-complementary byte pair: `abs(b1 - b2) <= 1 or >= 254`. -/
def convergenceCond (b1 b2 : ℕ) : Bool :=
  let delta := max b1 b2 - min b1 b2
  decide (delta ≤ 1 ∨ 254 ≤ delta)

/-- The sampling loop (lines 658-667): `k` iterations left, current cursor,
accumulated hit count.  The cursor advances by the stride and is reduced once
when it passes the end of the pool. -/
def convergenceLoop (pool : List ℕ) : ℕ → ℕ → ℕ → ℕ
  | 0, _, acc => acc
  | k + 1, cursor, acc =>
    let len := pool.length
    let stride := focusStride len
    let b1 := pool.getD cursor 0
    let b2 := pool.getD ((cursor + stride) % len) 0
    let acc2 := if convergenceCond b1 b2 then acc + 1 else acc
    let cursor2 := cursor + stride
    convergenceLoop pool k (if len ≤ cursor2 then cursor2 - len else cursor2) acc2

/-- `convergence_hits` for a frame's entropy pool. -/
def convergenceHits (pool : List ℕ) : ℕ :=
  convergenceLoop pool (focusSampleCount pool.length) 0 0

/-- `intent_gate_open = convergence_hits >= 4`. -/
def intentGateOpen (pool : List ℕ) : Bool := decide (4 ≤ convergenceHits pool)

/-- Whether sample `k` of the strided subset is a convergence hit, in closed
form: the pair at positions `(k * stride) % len` and `((k+1) * stride) % len`. -/
def hitAt (pool : List ℕ) (k : ℕ) : Bool :=
  let len := pool.length
  let stride := focusStride len
  convergenceCond (pool.getD ((k * stride) % len) 0) (pool.getD (((k + 1) * stride) % len) 0)

/-- The convergence-hit count over the strided sample, in closed form. -/
def specConvergenceCount (pool : List ℕ) : ℕ :=
  ((List.range (focusSampleCount pool.length)).filter (hitAt pool)).length

/-- The z-score of the hit count under the uniform null (lines 672-674);
`Real.sqrt` forces this definition (alone) out of the executable fragment. -/
noncomputable def zScore (pool : List ℕ) : ℝ :=
  let n : ℝ := (focusSampleCount pool.length : ℕ)
  let pPair : ℝ := 3 / 256
  let expected := n * pPair
  let variance := max (1 / 1000000) (n * pPair * (1 - pPair))
  ((convergenceHits pool : ℝ) - expected) / Real.sqrt variance

/-- `intent_target = max(0.0, min(1.5, z_score / 4.0))` (line 675). -/
noncomputable def intentTarget (pool : List ℕ) : ℝ :=
  max 0 (min (3/2) (zScore pool / 4))

/-! ## Excitation-override compositor layer (art.6.py lines 832-857) -/

/-- Python truncating conversion `int()` on a rational. -/
def pyTrunc (q : ℚ) : ℤ := q.num / (q.den : ℤ)

/-- The global name `max_entropy_len` read at line 836: it is bound nowhere in
the module, so the lookup is `none` and reading it raises `NameError`. -/
def maxEntropyLenGlobal : Option ℕ := none

/-- Outcome of the excitation-override layer for one cell: the cell is skipped
(hash gate, or no excitation), or drawn with the byte/value arguments handed
to `get_text_glyph`, a colour pair and a bold flag. -/
inductive ExciteCell where
  | skipped : ExciteCell
  | drawn : ℕ → ℚ → ℕ → Bool → ExciteCell
deriving DecidableEq

/-- The excitation-override layer (lines 832-857): on a cell with positive
excitation it computes the fragmentation and the deterministic render gate,
reads `max_entropy_len` to locate the secondary entropy byte, and resolves one
of the three intensity/fragmentation tiers.  Every Python operation that can
raise is made explicit: the unbound global read and (in its shadow) the
division and indexing. -/
def excitationOverrideLayer (g : Grid) (w1 w2 w3 : ℚ) (entByte : ℕ) (entVal : ℚ)
    (x y : ℕ) (t : ℚ) (width : ℕ) (pool : List ℕ) : Except String ExciteCell :=
  let excite := gridGet g ((x : ℤ), (y : ℤ))
  if excite > 0 then
    let fragment := min 1 (|w1 - w2| * (56/100) + |w2 - w3| * (44/100))
    let renderGate := (((entByte * 1103515245 + x * 131 + y * 197) % 256 : ℕ) : ℚ) / 255
    match maxEntropyLenGlobal with
    | none => Except.error "NameError: name max_entropy_len is not defined"
    | some maxLen =>
      if maxLen = 0 then Except.error "ZeroDivisionError"
      else
        let sigIdx := (((y * width + x : ℕ) : ℤ) + pyTrunc (t * (169/5))).emod (maxLen : ℤ)
        match pool.get? sigIdx.toNat with
        | none => Except.error "IndexError"
        | some sigByte =>
          let sigVal : ℚ := (sigByte : ℚ) / 255
          if excite > 82/100 ∨ (excite > 68/100 ∧ fragment > 74/100) then
            Except.ok (ExciteCell.drawn sigByte sigVal 7 true)
          else if excite > 42/100 ∨ fragment > 60/100 then
            if renderGate > 72/100 then Except.ok ExciteCell.skipped
            else Except.ok (ExciteCell.drawn (sigByte ^^^ entByte)
              ((sigVal + entVal) * (1/2)) 6 (decide (entVal > 74/100)))
          else
            if renderGate > 18/100 then Except.ok ExciteCell.skipped
            else Except.ok (ExciteCell.drawn (sigByte ^^^ (entByte / 2 % 256))
              (sigVal * (6/10) + entVal * (4/10)) 2 false)
  else Except.ok ExciteCell.skipped

/-! ## Helper lemmas about the grid primitives -/

theorem gridGet_gridSet (g : Grid) (c : ℤ × ℤ) (v : ℚ) (c' : ℤ × ℤ) :
    gridGet (gridSet g c v) c' = if c' = c then v else gridGet g c' := by
  induction g with
  | nil =>
    by_cases h : c' = c
    · subst h; simp [gridGet, gridSet, List.find?]
    · have h2 : ¬ (c = c') := fun he => h he.symm
      simp [gridGet, gridSet, List.find?, h2, h]
  | cons p rest ih =>
    by_cases hpc : p.1 = c
    · simp only [gridSet, if_pos hpc]
      by_cases h : c' = c
      · subst h; simp [gridGet, List.find?]
      · have h2 : ¬ (c = c') := fun he => h he.symm
        have hp2 : ¬ (p.1 = c') := fun he => h2 (hpc.symm.trans he)
        simp [gridGet, List.find?, h2, h, hp2]
    · simp only [gridSet, if_neg hpc]
      by_cases hp' : p.1 = c'
      · have h : ¬ (c' = c) := fun he => hpc (by rw [hp', he])
        simp [gridGet, List.find?, hp', h]
      · simpa [gridGet, List.find?, hp'] using ih

theorem gridGet_condRaise_le (g : Grid) (c : ℤ × ℤ) (v : ℚ) (c' : ℤ × ℤ) :
    gridGet g c' ≤ gridGet (condRaise g c v) c' := by
  unfold condRaise
  by_cases hv : v > gridGet g c
  · rw [if_pos hv, gridGet_gridSet]
    by_cases h : c' = c
    · rw [if_pos h, h]; exact le_of_lt hv
    · rw [if_neg h]
  · rw [if_neg hv]

theorem mem_gridSet (g : Grid) (c : ℤ × ℤ) (v : ℚ) (p : (ℤ × ℤ) × ℚ)
    (hp : p ∈ gridSet g c v) : p = (c, v) ∨ p ∈ g := by
  induction g with
  | nil => simpa [gridSet] using hp
  | cons q rest ih =>
    by_cases hqc : q.1 = c
    · simp only [gridSet, if_pos hqc, List.mem_cons] at hp
      rcases hp with h | h
      · exact Or.inl h
      · exact Or.inr (List.mem_cons_of_mem _ h)
    · simp only [gridSet, if_neg hqc, List.mem_cons] at hp
      rcases hp with h | h
      · exact Or.inr (h ▸ List.mem_cons_self _ _)
      · rcases ih h with h2 | h2
        · exact Or.inl h2
        · exact Or.inr (List.mem_cons_of_mem _ h2)

theorem mem_condRaise (g : Grid) (c : ℤ × ℤ) (v : ℚ) (p : (ℤ × ℤ) × ℚ)
    (hp : p ∈ condRaise g c v) : p = (c, v) ∨ p ∈ g := by
  unfold condRaise at hp
  by_cases hv : v > gridGet g c
  · rw [if_pos hv] at hp; exact mem_gridSet g c v p hp
  · rw [if_neg hv] at hp; exact Or.inr hp

theorem mem_sparksAdd_self (s : List (ℤ × ℤ)) (c : ℤ × ℤ) : c ∈ sparksAdd s c := by
  unfold sparksAdd
  by_cases h : c ∈ s
  · rwa [if_pos h]
  · rw [if_neg h]; exact List.mem_cons_self _ _

theorem mem_sparksAdd_of_mem (s : List (ℤ × ℤ)) (c c' : ℤ × ℤ) (h : c' ∈ s) :
    c' ∈ sparksAdd s c := by
  unfold sparksAdd
  by_cases h2 : c ∈ s
  · rwa [if_pos h2]
  · rw [if_neg h2]; exact List.mem_cons_of_mem _ h

theorem haloStep_grid_le (x y : ℤ) (b : ℚ) (w h : ℤ) (st : Grid × Rng) (d : ℤ × ℤ)
    (c : ℤ × ℤ) : gridGet st.1 c ≤ gridGet (haloStep x y b w h st d).1 c := by
  rcases h1 : nextReal st.2 with ⟨u, r1⟩
  by_cases hu : u < 18/100
  · rcases h2 : nextUniform r1 (4/100) (18/100) with ⟨hv, r2⟩
    by_cases hb : 0 ≤ x + d.1 ∧ x + d.1 < w ∧ 0 ≤ y + d.2 ∧ y + d.2 < h
    · simp only [haloStep, h1, if_pos hu, if_pos hb, h2]
      exact gridGet_condRaise_le _ _ _ _
    · simp [haloStep, h1, hu, hb]
  · simp [haloStep, h1, hu]

theorem foldl_haloStep_grid_le (x y : ℤ) (b : ℚ) (w h : ℤ) (l : List (ℤ × ℤ)) :
    ∀ (st : Grid × Rng) (c : ℤ × ℤ),
      gridGet st.1 c ≤ gridGet (l.foldl (haloStep x y b w h) st).1 c := by
  induction l with
  | nil => intro st c; simp
  | cons d rest ih =>
    intro st c
    rw [List.foldl_cons]
    exact le_trans (haloStep_grid_le x y b w h st d c) (ih _ c)

theorem spikeWalk_grid_le (w h : ℤ) (d : ℤ × ℤ) (n : ℕ) :
    ∀ (sx sy : ℤ) (sp : ℚ) (g : Grid) (r : Rng) (c : ℤ × ℤ),
      gridGet g c ≤ gridGet (spikeWalk w h d n sx sy sp g r).1 c := by
  induction n with
  | zero => intro sx sy sp g r c; simp [spikeWalk]
  | succ n ih =>
    intro sx sy sp g r c
    by_cases hb : sx + d.1 < 0 ∨ sy + d.2 < 0 ∨ sx + d.1 ≥ w ∨ sy + d.2 ≥ h
    · simp [spikeWalk, hb]
    · rcases h2 : nextUniform r (45/100) (70/100) with ⟨f, r2⟩
      simp only [spikeWalk, if_neg hb, h2]
      exact le_trans (gridGet_condRaise_le _ _ _ _) (ih _ _ _ _ _ c)

theorem inject_grid_le (g : Grid) (sparks : List (ℤ × ℤ)) (x y : ℤ) (v : ℚ) (rng : Rng)
    (w h : ℤ) (halo : Bool) (c : ℤ × ℤ) :
    gridGet g c ≤ gridGet (injectSigilExcitation g sparks x y v rng w h halo).1 c := by
  by_cases hoob : x < 0 ∨ y < 0 ∨ x ≥ w ∨ y ≥ h
  · simp [injectSigilExcitation, hoob]
  · cases halo with
    | false =>
      simp only [injectSigilExcitation, if_neg hoob]
      simpa using gridGet_condRaise_le g (x, y) v c
    | true =>
      have hg1 : gridGet g c ≤ gridGet (condRaise g (x, y) v) c :=
        gridGet_condRaise_le _ _ _ _
      have hfold :=
        foldl_haloStep_grid_le x y v w h neighborOffsets (condRaise g (x, y) v, rng) c
      rcases hnr : nextReal (neighborOffsets.foldl (haloStep x y v w h)
          (condRaise g (x, y) v, rng)).2 with ⟨u, r1⟩
      by_cases hu : u < 12/100
      · rcases h2 : nextRandint r1 0 7 with ⟨i, r2⟩
        rcases h3 : nextUniform r2 (22/100) (42/100) with ⟨sv, r3⟩
        rcases h4 : nextRandint r3 1 3 with ⟨n, r4⟩
        rcases h5 : spikeWalk w h (neighborOffsets.getD i (0, 0)) n x y (v * sv)
            (neighborOffsets.foldl (haloStep x y v w h) (condRaise g (x, y) v, rng)).1 r4
            with ⟨g2, r5⟩
        have hsw := spikeWalk_grid_le w h (neighborOffsets.getD i (0, 0)) n x y (v * sv)
          (neighborOffsets.foldl (haloStep x y v w h) (condRaise g (x, y) v, rng)).1 r4 c
        rw [h5] at hsw
        simp only [injectSigilExcitation, if_neg hoob, hnr, if_pos hu, h2, h3, h4, h5]
        simp only [show (true = false) = False by simp, if_false]
        exact le_trans hg1 (le_trans hfold hsw)
      · simp only [injectSigilExcitation, if_neg hoob, hnr, if_neg hu]
        simp only [show (true = false) = False by simp, if_false]
        exact le_trans hg1 hfold

theorem inject_sparks_mono (g : Grid) (sparks : List (ℤ × ℤ)) (x y : ℤ) (v : ℚ) (rng : Rng)
    (w h : ℤ) (halo : Bool) (c : ℤ × ℤ) (hc : c ∈ sparks) :
    c ∈ (injectSigilExcitation g sparks x y v rng w h halo).2.1 := by
  by_cases hoob : x < 0 ∨ y < 0 ∨ x ≥ w ∨ y ≥ h
  · simpa [injectSigilExcitation, hoob] using hc
  · cases halo with
    | false =>
      simp only [injectSigilExcitation, if_neg hoob]
      simpa using mem_sparksAdd_of_mem sparks (x, y) c hc
    | true =>
      rcases hnr : nextReal (neighborOffsets.foldl (haloStep x y v w h)
          (condRaise g (x, y) v, rng)).2 with ⟨u, r1⟩
      by_cases hu : u < 12/100
      · rcases h2 : nextRandint r1 0 7 with ⟨i, r2⟩
        rcases h3 : nextUniform r2 (22/100) (42/100) with ⟨sv, r3⟩
        rcases h4 : nextRandint r3 1 3 with ⟨n, r4⟩
        rcases h5 : spikeWalk w h (neighborOffsets.getD i (0, 0)) n x y (v * sv)
            (neighborOffsets.foldl (haloStep x y v w h) (condRaise g (x, y) v, rng)).1 r4
            with ⟨g2, r5⟩
        simp only [injectSigilExcitation, if_neg hoob, hnr, if_pos hu, h2, h3, h4, h5]
        simp only [show (true = false) = False by simp, if_false]
        exact mem_sparksAdd_of_mem sparks (x, y) c hc
      · simp only [injectSigilExcitation, if_neg hoob, hnr, if_neg hu]
        simp only [show (true = false) = False by simp, if_false]
        exact mem_sparksAdd_of_mem sparks (x, y) c hc

theorem inject_target_mem (g : Grid) (sparks : List (ℤ × ℤ)) (x y : ℤ) (v : ℚ) (rng : Rng)
    (w h : ℤ) (halo : Bool) (hx : 0 ≤ x) (hy : 0 ≤ y) (hxw : x < w) (hyh : y < h) :
    (x, y) ∈ (injectSigilExcitation g sparks x y v rng w h halo).2.1 := by
  have hoob : ¬ (x < 0 ∨ y < 0 ∨ x ≥ w ∨ y ≥ h) := by omega
  cases halo with
  | false =>
    simp only [injectSigilExcitation, if_neg hoob]
    simpa using mem_sparksAdd_self sparks (x, y)
  | true =>
    rcases hnr : nextReal (neighborOffsets.foldl (haloStep x y v w h)
        (condRaise g (x, y) v, rng)).2 with ⟨u, r1⟩
    by_cases hu : u < 12/100
    · rcases h2 : nextRandint r1 0 7 with ⟨i, r2⟩
      rcases h3 : nextUniform r2 (22/100) (42/100) with ⟨sv, r3⟩
      rcases h4 : nextRandint r3 1 3 with ⟨n, r4⟩
      rcases h5 : spikeWalk w h (neighborOffsets.getD i (0, 0)) n x y (v * sv)
          (neighborOffsets.foldl (haloStep x y v w h) (condRaise g (x, y) v, rng)).1 r4
          with ⟨g2, r5⟩
      simp only [injectSigilExcitation, if_neg hoob, hnr, if_pos hu, h2, h3, h4, h5]
      simp only [show (true = false) = False by simp, if_false]
      exact mem_sparksAdd_self sparks (x, y)
    · simp only [injectSigilExcitation, if_neg hoob, hnr, if_neg hu]
      simp only [show (true = false) = False by simp, if_false]
      exact mem_sparksAdd_self sparks (x, y)

theorem inject_false_grid (g : Grid) (sparks : List (ℤ × ℤ)) (x y : ℤ) (v : ℚ) (rng : Rng)
    (w h : ℤ) :
    (injectSigilExcitation g sparks x y v rng w h false).1 = g ∨
    (injectSigilExcitation g sparks x y v rng w h false).1 = condRaise g (x, y) v := by
  by_cases hoob : x < 0 ∨ y < 0 ∨ x ≥ w ∨ y ≥ h
  · left; simp [injectSigilExcitation, hoob]
  · right; simp [injectSigilExcitation, if_neg hoob]

theorem injectNoHaloFold_pred (P : ℚ → Prop) (w h : ℤ) (v : ℚ) (hv : P v)
    (st : Grid × List (ℤ × ℤ)) (c : ℤ × ℤ) (hst : ∀ p ∈ st.1, P p.2) :
    ∀ p ∈ (injectNoHaloFold w h v st c).1, P p.2 := by
  intro p hp
  rcases hq : injectSigilExcitation st.1 st.2 c.1 c.2 v rng0 w h false with ⟨g', s', r'⟩
  rw [injectNoHaloFold, hq] at hp
  simp only at hp
  rcases inject_false_grid st.1 st.2 c.1 c.2 v rng0 w h with hg | hg <;> rw [hq] at hg <;>
      simp only at hg <;> rw [hg] at hp
  · exact hst p hp
  · rcases mem_condRaise _ _ _ _ hp with h1 | h1
    · rw [h1]; exact hv
    · exact hst p h1

theorem foldl_injectNoHalo_pred (P : ℚ → Prop) (w h : ℤ) (v : ℚ) (hv : P v)
    (l : List (ℤ × ℤ)) :
    ∀ st : Grid × List (ℤ × ℤ), (∀ p ∈ st.1, P p.2) →
      ∀ p ∈ (l.foldl (injectNoHaloFold w h v) st).1, P p.2 := by
  induction l with
  | nil => intro st hst; simpa using hst
  | cons c rest ih =>
    intro st hst
    rw [List.foldl_cons]
    exact ih _ (injectNoHaloFold_pred P w h v hv st c hst)

theorem mem_decayStep (g : Grid) (d : ℚ) (p : (ℤ × ℤ) × ℚ) (hp : p ∈ decayStep g d) :
    0 < p.2 ∧ ∃ q ∈ g, p.2 = q.2 - d := by
  unfold decayStep at hp
  rw [List.mem_filter] at hp
  obtain ⟨hmem, hpos⟩ := hp
  rw [List.mem_map] at hmem
  obtain ⟨q, hq, he⟩ := hmem
  refine ⟨by simpa using hpos, q, hq, ?_⟩
  rw [← he]

theorem exciteDecayRate_nonneg (intentDilation : ℚ) (gateOpen : Bool) :
    0 ≤ exciteDecayRate intentDilation gateOpen :=
  le_trans (by norm_num) (le_max_left (8/100) _)

theorem pickWeightedLoop_char (target : ℚ) :
    ∀ (t : List (ℤ × ℚ)) (acc : ℚ),
      pickWeightedLoop t (target - acc) =
        ((t.zip (cumulativeWeights t acc)).find? (fun p => decide (target ≤ p.2))).map
          (fun p => p.1.1) := by
  intro t
  induction t with
  | nil => intro acc; simp [pickWeightedLoop, cumulativeWeights]
  | cons e rest ih =>
    intro acc
    rcases e with ⟨sid, w⟩
    simp only [pickWeightedLoop, cumulativeWeights, List.zip_cons_cons, List.find?]
    by_cases hc : target - acc - w ≤ 0
    · have hc2 : target ≤ acc + w := by linarith
      simp [hc, hc2]
    · have hc2 : ¬ (target ≤ acc + w) := by intro hle; exact hc (by linarith)
      have he : target - acc - w = target - (acc + w) := by ring
      simp only [hc, if_false, hc2, decide_eq_true_eq]
      rw [he]
      exact ih (acc + w)

theorem focusStride_le (len : ℕ) (hl : 0 < len) : focusStride len ≤ len := by
  unfold focusStride focusSampleCount
  exact max_le hl (Nat.div_le_self _ _)

theorem filter_map_succ_len (q : ℕ → Bool) :
    ∀ l : List ℕ, ((l.map Nat.succ).filter q).length = (l.filter (fun i => q (i + 1))).length := by
  intro l
  induction l with
  | nil => simp
  | cons a t ih =>
    simp only [List.map_cons, List.filter_cons, Nat.succ_eq_add_one]
    by_cases hq : q (a + 1) = true
    · simp [hq, ih]
    · simp [hq, ih]

theorem range_filter_shift (p : ℕ → Bool) (k j : ℕ) :
    ((List.range (k + 1)).filter (fun i => p (j + i))).length =
      (if p j then 1 else 0) + ((List.range k).filter (fun i => p (j + 1 + i))).length := by
  rw [List.range_succ_eq_map]
  simp only [List.filter_cons, Nat.add_zero]
  have hm : (((List.range k).map Nat.succ).filter (fun i => p (j + i))).length =
      ((List.range k).filter (fun i => p (j + 1 + i))).length := by
    rw [filter_map_succ_len (fun i => p (j + i)) (List.range k)]
    congr 1
    exact List.filter_congr (fun i _ => by rw [show j + (i + 1) = j + 1 + i by omega])
  by_cases hp : p j = true
  · simp [hp, hm]; omega
  · simp [hp, hm]

theorem convergenceLoop_eq (pool : List ℕ) (hlen : 0 < pool.length) :
    ∀ k j acc : ℕ,
      convergenceLoop pool k ((j * focusStride pool.length) % pool.length) acc =
        acc + ((List.range k).filter (fun i => hitAt pool (j + i))).length := by
  intro k
  induction k with
  | zero => intro j acc; simp [convergenceLoop]
  | succ k ih =>
    intro j acc
    set len := pool.length with hlendef
    set s := focusStride len with hsdef
    set c := (j * s) % len with hcdef
    have hs_le : s ≤ len := focusStride_le len hlen
    have hcur_lt : c < len := Nat.mod_lt _ hlen
    have hb2 : (c + s) % len = ((j + 1) * s) % len := by
      rw [hcdef, Nat.mod_add_mod, Nat.succ_mul]
    have hcs : (c + s) % len = if len ≤ c + s then c + s - len else c + s := by
      by_cases hc : len ≤ c + s
      · rw [if_pos hc]
        calc (c + s) % len = (c + s - len) % len := Nat.mod_eq_sub_mod hc
          _ = c + s - len := Nat.mod_eq_of_lt (by omega)
      · rw [if_neg hc]; exact Nat.mod_eq_of_lt (by omega)
    have hcur : (if len ≤ c + s then c + s - len else c + s) = ((j + 1) * s) % len := by
      rw [← hcs, hb2]
    simp only [convergenceLoop, ← hlendef, ← hsdef]
    rw [hb2, hcur, ih (j + 1)]
    rw [range_filter_shift (hitAt pool) k j]
    have hhit : convergenceCond (pool.getD c 0) (pool.getD (((j + 1) * s) % len) 0) =
        hitAt pool j := by
      rw [hcdef, hsdef, hlendef]; rfl
    rw [hhit]
    by_cases hj : hitAt pool j = true
    · simp [hj]; omega
    · simp [hj]

theorem convergenceHits_eq_spec (pool : List ℕ) (hlen : 0 < pool.length) :
    convergenceHits pool = specConvergenceCount pool := by
  have h := convergenceLoop_eq pool hlen (focusSampleCount pool.length) 0 0
  have h0 : (0 * focusStride pool.length) % pool.length = 0 := by simp
  rw [h0] at h
  rw [convergenceHits, h, specConvergenceCount]
  simp only [Nat.zero_add]

theorem dropWhile_append_all (p : ℕ → Bool) (ws rest : List ℕ) (h : ∀ b ∈ ws, p b = true) :
    (ws ++ rest).dropWhile p = rest.dropWhile p := by
  induction ws with
  | nil => simp
  | cons b t ih =>
    rw [List.cons_append, List.dropWhile_cons_of_pos (h b (List.mem_cons_self _ _))]
    exact ih (fun b2 hb2 => h b2 (List.mem_cons_of_mem _ hb2))

theorem dropWhile_eq_self_of_head (p : ℕ → Bool) (rest : List ℕ)
    (h : ∀ b ∈ rest.take 1, p b = false) : rest.dropWhile p = rest := by
  cases rest with
  | nil => rfl
  | cons b t =>
    rw [List.dropWhile_cons_of_neg]
    rw [h b (by simp)]
    simp

theorem scanDims_skip_ws : ∀ ws : List ℕ, (∀ b ∈ ws, isPbmWs b = true) →
    ∀ (data : List ℕ) (tokens : List (List ℕ)),
      scanDims (ws ++ data) ScanMode.scan tokens = scanDims data ScanMode.scan tokens := by
  intro ws
  induction ws with
  | nil => intro _ data tokens; rfl
  | cons b t ih =>
    intro hws data tokens
    have hb : isPbmWs b = true := hws b (List.mem_cons_self _ _)
    rw [List.cons_append]
    show scanDims (b :: (t ++ data)) ScanMode.scan tokens = _
    simp only [scanDims, hb, if_true]
    exact ih (fun b2 hb2 => hws b2 (List.mem_cons_of_mem _ hb2)) data tokens

theorem scanDims_token_mode : ∀ t : List ℕ, (∀ b ∈ t, isPbmWs b = false) →
    ∀ (data : List ℕ) (acc : List ℕ) (tokens : List (List ℕ)),
      scanDims (t ++ data) (ScanMode.token acc) tokens =
        scanDims data (ScanMode.token (t.reverse ++ acc)) tokens := by
  intro t
  induction t with
  | nil => intro _ data acc tokens; simp
  | cons b t2 ih =>
    intro hws data acc tokens
    have hb : isPbmWs b = false := hws b (List.mem_cons_self _ _)
    rw [List.cons_append]
    show scanDims (b :: (t2 ++ data)) (ScanMode.token acc) tokens = _
    simp only [scanDims, hb, Bool.false_eq_true, if_false]
    rw [ih (fun b2 hb2 => hws b2 (List.mem_cons_of_mem _ hb2)) data (b :: acc) tokens]
    simp [List.append_assoc]

theorem readDims_two_tokens (t1 t2 ws1 ws2 ws3 rest : List ℕ)
    (ht1ne : t1 ≠ []) (ht1ws : ∀ b ∈ t1, isPbmWs b = false)
    (ht1h : ∀ b ∈ t1.take 1, ¬ b = 35)
    (ht2ne : t2 ≠ []) (ht2ws : ∀ b ∈ t2, isPbmWs b = false)
    (ht2h : ∀ b ∈ t2.take 1, ¬ b = 35)
    (hws1 : ∀ b ∈ ws1, isPbmWs b = true)
    (hws2ne : ws2 ≠ []) (hws2 : ∀ b ∈ ws2, isPbmWs b = true)
    (hws3ne : ws3 ≠ []) (hws3 : ∀ b ∈ ws3, isPbmWs b = true) :
    readDims (ws1 ++ (t1 ++ (ws2 ++ (t2 ++ (ws3 ++ rest))))) = ([t1, t2], ws3 ++ rest) := by
  obtain ⟨c1, t1', rfl⟩ : ∃ c t, t1 = c :: t := by
    cases t1 with
    | nil => exact absurd rfl ht1ne
    | cons a t => exact ⟨a, t, rfl⟩
  obtain ⟨c2, t2', rfl⟩ : ∃ c t, t2 = c :: t := by
    cases t2 with
    | nil => exact absurd rfl ht2ne
    | cons a t => exact ⟨a, t, rfl⟩
  obtain ⟨b2, ws2', rfl⟩ : ∃ c t, ws2 = c :: t := by
    cases ws2 with
    | nil => exact absurd rfl hws2ne
    | cons a t => exact ⟨a, t, rfl⟩
  obtain ⟨b3, ws3', rfl⟩ : ∃ c t, ws3 = c :: t := by
    cases ws3 with
    | nil => exact absurd rfl hws3ne
    | cons a t => exact ⟨a, t, rfl⟩
  have hc1ws : isPbmWs c1 = false := ht1ws c1 (List.mem_cons_self _ _)
  have hc1h : (c1 == 35) = false := by
    have := ht1h c1 (by simp)
    simpa using this
  have hc2ws : isPbmWs c2 = false := ht2ws c2 (List.mem_cons_self _ _)
  have hc2h : (c2 == 35) = false := by
    have := ht2h c2 (by simp)
    simpa using this
  have hb2 : isPbmWs b2 = true := hws2 b2 (List.mem_cons_self _ _)
  have hb3 : isPbmWs b3 = true := hws3 b3 (List.mem_cons_self _ _)
  rw [readDims, scanDims_skip_ws ws1 hws1]
  rw [List.cons_append]
  show scanDims (c1 :: (t1' ++ (b2 :: ws2' ++ (c2 :: t2' ++ (b3 :: ws3' ++ rest)))))
      ScanMode.scan [] = _
  simp only [scanDims, hc1ws, hc1h, Bool.false_eq_true, if_false]
  rw [scanDims_token_mode t1' (fun b hb => ht1ws b (List.mem_cons_of_mem _ hb))]
  rw [List.cons_append]
  show scanDims (b2 :: (ws2' ++ (c2 :: t2' ++ (b3 :: ws3' ++ rest))))
      (ScanMode.token (t1'.reverse ++ [c1])) [] = _
  simp only [scanDims, hb2, if_true]
  have hrev1 : (t1'.reverse ++ [c1]).reverse = c1 :: t1' := by simp
  rw [hrev1]
  simp only [List.nil_append, List.length_cons, List.length_nil]
  rw [show ((Nat.succ 0 == 2) = false) from rfl]
  simp only [Bool.false_eq_true, if_false]
  rw [scanDims_skip_ws ws2' (fun b hb => hws2 b (List.mem_cons_of_mem _ hb))]
  rw [List.cons_append]
  show scanDims (c2 :: (t2' ++ (b3 :: ws3' ++ rest))) ScanMode.scan [c1 :: t1'] = _
  simp only [scanDims, hc2ws, hc2h, Bool.false_eq_true, if_false]
  rw [scanDims_token_mode t2' (fun b hb => ht2ws b (List.mem_cons_of_mem _ hb))]
  rw [List.cons_append]
  show scanDims (b3 :: (ws3' ++ rest)) (ScanMode.token (t2'.reverse ++ [c2])) [c1 :: t1'] = _
  simp only [scanDims, hb3, if_true]
  have hrev2 : (t2'.reverse ++ [c2]).reverse = c2 :: t2' := by simp
  rw [hrev2]
  simp

/-! ## The claims -/

/-- Claim C10: calling the excitation injection primitive with a target
coordinate outside the grid (`x < 0`, `y < 0`, `x ≥ width` or `y ≥ height`)
is a complete no-op — the excitation grid, the active-sparks set and even the
randomness oracle are returned unchanged, with no halo or spike laid down. -/
theorem claim_C10_oob_noop (g : Grid) (sparks : List (ℤ × ℤ)) (x y : ℤ) (v : ℚ) (rng : Rng)
    (w h : ℤ) (halo : Bool) (hoob : x < 0 ∨ y < 0 ∨ x ≥ w ∨ y ≥ h) :
    injectSigilExcitation g sparks x y v rng w h halo = (g, sparks, rng) := by
  rw [injectSigilExcitation, if_pos hoob]

theorem claim_C10_witness :
    ((-1 : ℤ) < 0 ∨ (0 : ℤ) < 0 ∨ (-1 : ℤ) ≥ 80 ∨ (0 : ℤ) ≥ 24) ∧
      injectSigilExcitation [] [] (-1) 0 1 rng0 80 24 true = ([], [], rng0) :=
  ⟨Or.inl (by norm_num),
   claim_C10_oob_noop [] [] (-1) 0 1 rng0 80 24 true (Or.inl (by norm_num))⟩

/-- Claim C7 counterexample: the claim says the target cell is *always* added
to the active-sparks output set, but a call whose target lies outside the grid
adds nothing — here the target `(-1, 0)` is absent from the output set. -/
theorem claim_C7_counterexample :
    ¬ (((-1 : ℤ), (0 : ℤ)) ∈ (injectSigilExcitation [] [] (-1) 0 1 rng0 80 24 true).2.1) := by
  simp [injectSigilExcitation]

/-- Claim C7 (amended): the injection primitive is a monotone raise — after
the call every cell of the grid (target, halo neighbours, spike trail and all
others) holds at least its previous intensity, the active-sparks set only
grows — and the target cell is added to the active-sparks output set whenever
it lies within the grid bounds. -/
theorem claim_C7_monotone_raise (g : Grid) (sparks : List (ℤ × ℤ)) (x y : ℤ) (v : ℚ)
    (rng : Rng) (w h : ℤ) (halo : Bool) :
    (∀ c : ℤ × ℤ,
      gridGet g c ≤ gridGet (injectSigilExcitation g sparks x y v rng w h halo).1 c) ∧
    (∀ c ∈ sparks, c ∈ (injectSigilExcitation g sparks x y v rng w h halo).2.1) ∧
    (0 ≤ x → 0 ≤ y → x < w → y < h →
      (x, y) ∈ (injectSigilExcitation g sparks x y v rng w h halo).2.1) :=
  ⟨fun c => inject_grid_le g sparks x y v rng w h halo c,
   fun c hc => inject_sparks_mono g sparks x y v rng w h halo c hc,
   fun hx hy hxw hyh => inject_target_mem g sparks x y v rng w h halo hx hy hxw hyh⟩

theorem claim_C7_witness :
    gridGet [] ((5 : ℤ), (5 : ℤ)) ≤
        gridGet (injectSigilExcitation [] [] 0 0 1 rng0 8 8 true).1 (5, 5) ∧
      ((0 : ℤ), (0 : ℤ)) ∈ (injectSigilExcitation [] [] 0 0 1 rng0 8 8 true).2.1 :=
  ⟨(claim_C7_monotone_raise [] [] 0 0 1 rng0 8 8 true).1 (5, 5),
   (claim_C7_monotone_raise [] [] 0 0 1 rng0 8 8 true).2.2
     (by norm_num) (by norm_num) (by norm_num) (by norm_num)⟩

/-- Claim C6: over one frame of the excitation pipeline — ignition injections
at intensity 1, the decay-and-delete pass, propagation injections at 0.94 and
render-seed injections at 1 — every cell present in the resulting grid holds
an intensity in `(0, 1]`, for every choice of injected positions, dilation,
gate state and grid size, provided the frame started with intensities ≤ 1. -/
theorem claim_C6_frame_invariant (g0 : Grid) (sparksPrev : List (ℤ × ℤ))
    (igns props seeds : List (ℤ × ℤ)) (intentDilation : ℚ) (gateOpen : Bool) (w h : ℤ)
    (hg : ∀ p ∈ g0, p.2 ≤ 1) :
    ∀ p ∈ (frameExcitation g0 sparksPrev igns props seeds intentDilation gateOpen w h).1,
      0 < p.2 ∧ p.2 ≤ 1 := by
  intro p hp
  simp only [frameExcitation] at hp
  have h1 : ∀ q ∈ (igns.foldl (injectNoHaloFold w h 1) (g0, sparksPrev)).1, q.2 ≤ 1 :=
    foldl_injectNoHalo_pred (fun t => t ≤ 1) w h 1 le_rfl igns (g0, sparksPrev) hg
  have h2 : ∀ q ∈ decayStep (igns.foldl (injectNoHaloFold w h 1) (g0, sparksPrev)).1
      (exciteDecayRate intentDilation gateOpen), 0 < q.2 ∧ q.2 ≤ 1 := by
    intro q hq
    obtain ⟨hpos, r, hr, he⟩ := mem_decayStep _ _ q hq
    refine ⟨hpos, ?_⟩
    have hb := h1 r hr
    have hd := exciteDecayRate_nonneg intentDilation gateOpen
    rw [he]; linarith
  have h3 := foldl_injectNoHalo_pred (fun t => 0 < t ∧ t ≤ 1) w h (94/100) (by norm_num)
    props (decayStep (igns.foldl (injectNoHaloFold w h 1) (g0, sparksPrev)).1
      (exciteDecayRate intentDilation gateOpen), ([] : List (ℤ × ℤ))) h2
  exact foldl_injectNoHalo_pred (fun t => 0 < t ∧ t ≤ 1) w h 1 (by norm_num) seeds _ h3 p hp

theorem claim_C6_witness : (0 : ℚ) < 1 ∧ (1 : ℚ) ≤ 1 :=
  claim_C6_frame_invariant [] [] [] [] [(0, 0)] 0 false 10 10 (by simp)
    (((0 : ℤ), (0 : ℤ)), (1 : ℚ))
    (by norm_num [frameExcitation, injectNoHaloFold, injectSigilExcitation, condRaise,
      gridGet, gridSet, sparksAdd, decayStep])

/-- Claim C2 counterexample: with the minimum 40×10 viewport the cell
`(39, 9)` — last column of the last row — is never evaluated by the per-cell
render loop, though the claim says all width×height cells are. -/
theorem claim_C2_counterexample :
    39 < 40 ∧ 9 < 10 ∧ ¬ ((39, 9) ∈ renderedCells 40 10) := by decide

/-- Claim C2 (amended): on every frame the per-cell pipeline is evaluated for
exactly the cells with `x < width - 1` and `y < height - 1`; the last row and
the last column of the viewport are skipped. -/
theorem claim_C2_render_domain (w h x y : ℕ) :
    (x, y) ∈ renderedCells w h ↔ x < w - 1 ∧ y < h - 1 := by
  simp only [renderedCells, List.mem_flatMap, List.mem_map, List.mem_range, Prod.mk.injEq]
  constructor
  · rintro ⟨a, ha, b, hb, hbx, hay⟩
    exact ⟨hbx ▸ hb, hay ▸ ha⟩
  · rintro ⟨hx, hy⟩
    exact ⟨y, hy, x, hx, rfl, rfl⟩

/-- Claim C3 counterexample: on the index-absent path with the default raster
present, the rebuilt weighted table is `[(1, 4.2)]` — the single entry's
weight is the hard-coded 4.2, not 1.0 as claimed. -/
theorem claim_C3_counterexample :
    (refreshFallbackOutcome (loadPbmMask grandSealBytes)).2.1 = [(1, 21/5)] ∧
      ¬ ((refreshFallbackOutcome (loadPbmMask grandSealBytes)).2.1 = [(1, 1)]) := by
  have hm : loadPbmMask grandSealBytes = some (PbmMask.mk 1 1 1 [0]) := by decide
  have hmax : max ((1 : ℚ)/100) (21/5) = 21/5 := max_eq_right (by norm_num)
  rw [hm]
  constructor
  · simp [refreshFallbackOutcome, fallbackRegistry, sortById, insertById, buildWeightTable,
      sigilWeightRow, hmax]
    norm_num
  · simp [refreshFallbackOutcome, fallbackRegistry, sortById, insertById, buildWeightTable,
      sigilWeightRow, hmax]
    norm_num

/-- Claim C3 (amended): when the index is absent (or yields zero usable
entries) and the built-in default raster decodes, the rebuilt registry has
exactly one entry — but its weight in the weighted selection table is 4.2
(the fallback record's hard-coded weight, floor-clamped), with total weight
4.2, not 1.0. -/
theorem claim_C3_fallback_weight :
    (refreshFallbackOutcome (loadPbmMask grandSealBytes)).1.length = 1 ∧
    (refreshFallbackOutcome (loadPbmMask grandSealBytes)).2.1 = [(1, 21/5)] ∧
    (refreshFallbackOutcome (loadPbmMask grandSealBytes)).2.2 = 21/5 := by
  have hm : loadPbmMask grandSealBytes = some (PbmMask.mk 1 1 1 [0]) := by decide
  have hmax : max ((1 : ℚ)/100) (21/5) = 21/5 := max_eq_right (by norm_num)
  have hmax2 : max ((0 : ℚ) + 21/5) (1/100) = 0 + 21/5 := max_eq_left (by norm_num)
  rw [hm]
  refine ⟨?_, ?_, ?_⟩ <;>
      simp [refreshFallbackOutcome, fallbackRegistry, sortById, insertById, buildWeightTable,
        sigilWeightRow, hmax, hmax2] <;>
    norm_num

/-- Claim C8: the weighted draw is cumulative-weight roulette selection — for
every non-empty table it returns the id of the first entry whose cumulative
weight reaches the sample scaled by the total (the last id as fallback), and
on the singleton table `[(1, 1.0)]` with total weight 1.0 it returns id 1 for
every sample in `[0, 1)`. -/
theorem claim_C8_roulette :
    (∀ (table : List (ℤ × ℚ)) (total u : ℚ), table ≠ [] →
      pick_weighted_sigil_id table total u = rouletteSpec table total u) ∧
    (∀ u : ℚ, 0 ≤ u → u < 1 → pick_weighted_sigil_id [(1, 1)] 1 u = 1) := by
  constructor
  · intro table total u hne
    rw [pick_weighted_sigil_id, if_neg hne, rouletteSpec]
    have h := pickWeightedLoop_char (u * total) table 0
    rw [sub_zero] at h
    rw [h]
    cases hfind : (table.zip (cumulativeWeights table 0)).find?
        (fun p => decide (u * total ≤ p.2)) with
    | none => simp
    | some p => simp
  · intro u h0 h1
    rw [pick_weighted_sigil_id, if_neg (by simp)]
    have hle : u * 1 - 1 ≤ 0 := by linarith
    simp only [pickWeightedLoop, if_pos hle]

theorem claim_C8_witness :
    pick_weighted_sigil_id [(1, 1)] 1 (1/2) = rouletteSpec [(1, 1)] 1 (1/2) ∧
      pick_weighted_sigil_id [(1, 1)] 1 (1/2) = 1 :=
  ⟨claim_C8_roulette.1 [(1, 1)] 1 (1/2) (by simp),
   claim_C8_roulette.2 (1/2) (by norm_num) (by norm_num)⟩

/-- Claim C5: the raster decoder is total — on every byte string it returns a
mask or `none`, never raising; in particular wrong magic (any input not
starting `P4`, e.g. a `P5` file), unparsable dimension tokens and a truncated
payload all yield `none`. -/
theorem claim_C5_decoder_total :
    (∀ data : List ℕ, ¬ (data.take 2 = [80, 52]) → loadPbmMask data = none) ∧
    loadPbmMask [80, 53, 10, 49, 32, 49, 10, 0] = none ∧
    loadPbmMask [80, 52, 32, 33, 33, 32, 50, 10] = none ∧
    loadPbmMask [80, 52, 32, 56, 32, 50, 10, 255] = none ∧
    (∀ data : List ℕ, loadPbmMask data = none ∨ ∃ m, loadPbmMask data = some m) := by
  refine ⟨?_, by decide, by decide, by decide, ?_⟩
  · intro data h
    rw [loadPbmMask, if_neg h]
  · intro data
    cases h : loadPbmMask data with
    | none => exact Or.inl rfl
    | some m => exact Or.inr ⟨m, rfl⟩

theorem claim_C5_witness :
    ¬ (([80, 53] : List ℕ).take 2 = [80, 52]) ∧ loadPbmMask [80, 53] = none :=
  ⟨by decide, claim_C5_decoder_total.1 [80, 53] (by decide)⟩

/-- Claim C9: for every (non-empty) per-frame entropy buffer, the intent gate
is open exactly when the convergence-hit count over the strided sample — in
closed form, hits at positions `(k * stride) % len` paired with
`((k+1) * stride) % len` — is at least 4, and the computed intent target lies
in `[0, 1.5]`. -/
theorem claim_C9_intent_gate (pool : List ℕ) (hlen : 0 < pool.length) :
    (intentGateOpen pool = true ↔ 4 ≤ specConvergenceCount pool) ∧
    0 ≤ intentTarget pool ∧ intentTarget pool ≤ 3/2 := by
  refine ⟨?_, le_max_left 0 _, max_le (by norm_num) (min_le_left _ _)⟩
  rw [intentGateOpen, convergenceHits_eq_spec pool hlen]
  exact decide_eq_true_iff

theorem claim_C9_witness :
    0 < ([0] : List ℕ).length ∧
      ((intentGateOpen [0] = true ↔ 4 ≤ specConvergenceCount [0]) ∧
        0 ≤ intentTarget [0] ∧ intentTarget [0] ≤ 3/2) :=
  ⟨by decide, claim_C9_intent_gate [0] (by decide)⟩

/-- Claim C1 (code bug): whenever a cell has positive excitation intensity,
the excitation-override layer reads the global `max_entropy_len`, which is
bound nowhere in the module, so instead of resolving a glyph/style or
skipping it raises `NameError` — for every entropy buffer, warp scalars,
elapsed time and grid size. -/
theorem claim_C1_layer_raises (g : Grid) (w1 w2 w3 : ℚ) (entByte : ℕ) (entVal : ℚ)
    (x y : ℕ) (t : ℚ) (width : ℕ) (pool : List ℕ)
    (hex : 0 < gridGet g ((x : ℤ), (y : ℤ))) :
    excitationOverrideLayer g w1 w2 w3 entByte entVal x y t width pool =
      Except.error "NameError: name max_entropy_len is not defined" := by
  simp only [excitationOverrideLayer, maxEntropyLenGlobal]
  rw [if_pos hex]

theorem claim_C1_witness :
    (0 : ℚ) < gridGet [(((0 : ℤ), (0 : ℤ)), 94/100)] (0, 0) ∧
      excitationOverrideLayer [(((0 : ℤ), (0 : ℤ)), 94/100)] 0 0 0 0 0 0 0 0 0 [] =
        Except.error "NameError: name max_entropy_len is not defined" :=
  ⟨by norm_num [gridGet, List.find?],
   claim_C1_layer_raises [(((0 : ℤ), (0 : ℤ)), 94/100)] 0 0 0 0 0 0 0 0 0 []
     (by norm_num [gridGet, List.find?])⟩

/-- Claim C4 counterexample: on `b"P4 1 1\n\n\x00"` the claim's bit-exact
format — exactly one whitespace byte after the header, payload of exactly
`ceil(width/8) * height` bytes — rejects (two whitespace bytes, so under the
claim the payload is 2 bytes where 1 is expected), yet the decoder accepts,
skipping both newlines and returning the 1×1 mask. -/
theorem claim_C4_counterexample :
    specPbmDecode [80, 52, 32, 49, 32, 49, 10, 10, 0] = none ∧
      loadPbmMask [80, 52, 32, 49, 32, 49, 10, 10, 0] = some (PbmMask.mk 1 1 1 [0]) := by
  decide

/-- Claim C4 (amended): after the magic, two dimension tokens — arbitrary
byte tokens (non-empty, whitespace-free, not starting `#`) that `int()`
parses to `w` and `h` — separated and followed by whitespace runs of any
positive length, the decoder consumes *all* of that whitespace and then takes
the next `ceil(width/8) * height` input bytes as the payload, accepting
exactly when that many bytes remain (and the computed size is not negative,
which only a sign-carrying dimension token could produce); trailing bytes
beyond the payload are ignored. -/
theorem claim_C4_payload_rule (t1 t2 ws1 ws2 ws3 rest : List ℕ) (w h : ℤ)
    (hpy1 : pyInt t1 = some w) (hpy2 : pyInt t2 = some h)
    (ht1ne : t1 ≠ []) (ht1ws : ∀ b ∈ t1, isPbmWs b = false)
    (ht1h : ∀ b ∈ t1.take 1, ¬ b = 35)
    (ht2ne : t2 ≠ []) (ht2ws : ∀ b ∈ t2, isPbmWs b = false)
    (ht2h : ∀ b ∈ t2.take 1, ¬ b = 35)
    (hws1 : ∀ b ∈ ws1, isPbmWs b = true)
    (hws2ne : ws2 ≠ []) (hws2 : ∀ b ∈ ws2, isPbmWs b = true)
    (hws3ne : ws3 ≠ []) (hws3 : ∀ b ∈ ws3, isPbmWs b = true)
    (hrest : ∀ b ∈ rest.take 1, isPbmWs b = false) :
    loadPbmMask ([80, 52] ++ ws1 ++ t1 ++ ws2 ++ t2 ++ ws3 ++ rest) =
      (if 0 ≤ Int.fdiv (w + 7) 8 * h ∧ Int.fdiv (w + 7) 8 * h ≤ (rest.length : ℤ)
       then some (PbmMask.mk w h (Int.fdiv (w + 7) 8)
         (rest.take (Int.fdiv (w + 7) 8 * h).toNat))
       else none) := by
  have hscan := readDims_two_tokens t1 t2 ws1 ws2 ws3 rest ht1ne ht1ws ht1h
    ht2ne ht2ws ht2h hws1 hws2ne hws2 hws3ne hws3
  have hdw : (ws3 ++ rest).dropWhile isPbmWs = rest := by
    rw [dropWhile_append_all isPbmWs ws3 rest hws3]
    exact dropWhile_eq_self_of_head isPbmWs rest hrest
  have hdata : ([80, 52] ++ ws1 ++ t1 ++ ws2 ++ t2 ++ ws3 ++ rest) =
      [80, 52] ++ (ws1 ++ (t1 ++ (ws2 ++ (t2 ++ (ws3 ++ rest))))) := by
    simp [List.append_assoc]
  rw [hdata]
  have htake : ([80, 52] ++ (ws1 ++ (t1 ++ (ws2 ++ (t2 ++ (ws3 ++ rest)))))).take 2 =
      [80, 52] := rfl
  have hdrop : ([80, 52] ++ (ws1 ++ (t1 ++ (ws2 ++ (t2 ++ (ws3 ++ rest)))))).drop 2 =
      ws1 ++ (t1 ++ (ws2 ++ (t2 ++ (ws3 ++ rest)))) := rfl
  simp only [loadPbmMask, htake, if_pos, hdrop, hscan, hpy1, hpy2, hdw]
  rw [List.length_take]
  by_cases hc : 0 ≤ Int.fdiv (w + 7) 8 * h ∧ Int.fdiv (w + 7) 8 * h ≤ (rest.length : ℤ)
  · rw [if_pos (by omega), if_pos hc]
  · rw [if_neg (by omega), if_neg hc]

theorem claim_C4_witness :
    loadPbmMask ([80, 52] ++ [32] ++ [56] ++ [32] ++ [50] ++ [10] ++ [7, 9, 11]) =
      (if 0 ≤ Int.fdiv ((8 : ℤ) + 7) 8 * 2 ∧
          Int.fdiv ((8 : ℤ) + 7) 8 * 2 ≤ (([7, 9, 11] : List ℕ).length : ℤ)
       then some (PbmMask.mk 8 2 (Int.fdiv ((8 : ℤ) + 7) 8)
         (([7, 9, 11] : List ℕ).take (Int.fdiv ((8 : ℤ) + 7) 8 * 2).toNat))
       else none) :=
  claim_C4_payload_rule [56] [50] [32] [32] [10] [7, 9, 11] 8 2 (by decide) (by decide)
    (by decide) (by decide) (by decide) (by decide) (by decide) (by decide) (by decide)
    (by decide) (by decide) (by decide) (by decide) (by decide)
